import Mathlib

/-!
Shallow embedding of the persistent knowledge store of the
nursing-knowledge-agent backend (`backend/services/knowledge_store.py`),
together with theorems settling the specification claims about it.

Machine-level conventions: Python strings are Lean `String`s compared by
code point; Python dicts that the store manipulates generically are
association lists in insertion order; timestamps (`datetime.utcnow`) and
fresh identifiers (`uuid4`) are explicit parameters threaded through the
operations, since the store only ever treats them as opaque strings.
-/

namespace KnowledgeStore

/-- ASCII whitespace recognized by Python `str.strip()` (Python also strips a
few non-ASCII space code points, which the store's data never contains). -/
def isPySpace (c : Char) : Bool :=
  c == ' ' || c == '\t' || c == '\n' || c == '\r' || c == '\x0b' || c == '\x0c'

/-- Python `s.strip()`. -/
def pyStrip (s : String) : String :=
  String.mk (((s.data.dropWhile isPySpace).reverse.dropWhile isPySpace).reverse)

/-- Python `s.lower()` (ASCII case folding, which covers the store's data). -/
def pyLower (s : String) : String :=
  String.mk (s.data.map Char.toLower)

/-- Python `a or b` for an optional string `a`: `None` and `""` are falsy. -/
def pyOrStr (a : Option String) (b : String) : String :=
  match a with
  | some s => if s = "" then b else s
  | none => b

/-- Whether `needle` occurs at the head of `hay`. -/
def matchesAt : List Char → List Char → Bool
  | [], _ => true
  | _ :: _, [] => false
  | a :: as, b :: bs => a == b && matchesAt as bs

/-- Python `needle in hay` for strings: contiguous-substring containment. -/
def containsSeq (needle : List Char) : List Char → Bool
  | [] => needle.isEmpty
  | b :: rest => matchesAt needle (b :: rest) || containsSeq needle rest

/-- Python `needle in hay` on strings. -/
def pyInStr (needle hay : String) : Bool :=
  containsSeq needle.data hay.data

/-- Python `a < b` on strings restricted to single code points, lifted to
lists: lexicographic comparison by code point. `charListLe a b` is
Python's `a <= b`. -/
def charListLe : List Char → List Char → Bool
  | [], _ => true
  | _ :: _, [] => false
  | a :: as, b :: bs =>
    if a.toNat < b.toNat then true
    else if b.toNat < a.toNat then false
    else charListLe as bs

/-- Python `a <= b` on strings (code-point lexicographic order, the order
`list.sort` uses on string keys). -/
def pyStrLe (a b : String) : Bool :=
  charListLe a.data b.data

/-- A stored glossary term record, with the exact fields `upsert_term`
writes. -/
structure Term where
  id : String
  term : String
  translation : Option String
  notes : Option String
  categories : List String
  created_at : String
  updated_at : String
deriving DecidableEq

/-- The payload accepted by `upsert_term`: every field is read with
`entry.get(...)`, so each is optional. -/
structure TermEntry where
  id : Option String := none
  term : Option String := none
  translation : Option String := none
  notes : Option String := none
  categories : Option (List String) := none

/-- Between `Term`s, the comparison `list.sort(key=lambda item: item.get("term", ""))`
actually performs: raw term text, ascending. -/
def rawTermLe (a b : Term) : Prop :=
  pyStrLe a.term b.term = true

instance : DecidableRel rawTermLe := fun a b => by
  unfold rawTermLe; exact inferInstance

/-- `terms.sort(key=lambda item: item.get("term", ""))`: Python's sort is a
stable ascending sort by the key, so it is extensionally insertion sort by
`rawTermLe`. -/
def sortTermsByTerm (terms : List Term) : List Term :=
  List.insertionSort rawTermLe terms

/-- The match scan of `upsert_term`: first stored record whose `id` equals
the (possibly freshly generated) entry id, or whose raw `term` text equals
the stripped incoming term. -/
def upsertMatch (entryId termStripped : String) (terms : List Term) : Option Term :=
  terms.find? (fun item => item.id == entryId || item.term == termStripped)

/-- `KnowledgeStore.upsert_term`, with the snapshot's term list passed and
returned explicitly (the `_read`/`_write` pair brackets exactly this
computation). `freshId` is the `str(uuid4())` drawn in this call and `now`
is `self._now()`. Note the source's `term_lower` variable only strips the
incoming text; it never lowercases it, and the match on stored terms is a
case-sensitive string equality. -/
def upsertTerm (entry : TermEntry) (freshId now : String) (terms : List Term) :
    Term × List Term :=
  let entryId := pyOrStr entry.id freshId
  let termLower := pyStrip (entry.term.getD "")
  let existing := upsertMatch entryId termLower terms
  let record : Term :=
    { id := entryId
      term := termLower
      translation := entry.translation
      notes := entry.notes
      categories := entry.categories.getD []
      created_at := match existing with
        | some e => e.created_at
        | none => now
      updated_at := now }
  let terms' :=
    match existing with
    | some e => terms.map (fun item => if item.id == e.id then record else item)
    | none => terms ++ [record]
  (record, sortTermsByTerm terms')

/-- The allow-listed partial update accepted by `update_term`: only these
four keys survive the `if k in {"term", "translation", "notes", "categories"}`
filter. A `some` field is a supplied value (for `translation` and `notes`
possibly `null`). -/
structure TermUpdates where
  term : Option String := none
  translation : Option (Option String) := none
  notes : Option (Option String) := none
  categories : Option (List String) := none

/-- `item.update({...allow-listed...})` on a term record. -/
def applyTermUpdates (u : TermUpdates) (t : Term) : Term :=
  { t with
    term := u.term.getD t.term
    translation := u.translation.getD t.translation
    notes := u.notes.getD t.notes
    categories := u.categories.getD t.categories }

/-- Replace the first element satisfying `p` (the Python loop mutates the
first match and breaks). -/
def updateFirst (p : α → Bool) (f : α → α) : List α → List α
  | [] => []
  | x :: xs => if p x then f x :: xs else x :: updateFirst p f xs

/-- `KnowledgeStore.update_term`: first record with the given id gets the
allow-listed fields merged and `updated_at` set; the list is then sorted and
written. On no match nothing is mutated or written and `None` is returned. -/
def updateTerm (entryId : String) (u : TermUpdates) (now : String)
    (terms : List Term) : Option Term × List Term :=
  match terms.find? (fun item => item.id == entryId) with
  | none => (none, terms)
  | some t =>
    let t' := { applyTermUpdates u t with updated_at := now }
    let terms' := updateFirst (fun item => item.id == entryId)
      (fun item => { applyTermUpdates u item with updated_at := now }) terms
    (some t', sortTermsByTerm terms')

/-- `KnowledgeStore.delete_term`. -/
def deleteTerm (entryId : String) (terms : List Term) : Bool × List Term :=
  let newTerms := terms.filter (fun item => ¬ item.id == entryId)
  if newTerms.length == terms.length then (false, terms) else (true, newTerms)

/-- `KnowledgeStore.get_term`. -/
def getTerm (entryId : String) (terms : List Term) : Option Term :=
  terms.find? (fun item => item.id == entryId)

/-- `KnowledgeStore.list_terms`: optional case-insensitive substring filter
over term, translation and notes (an empty search string is falsy in Python
and disables the filter), then sort by raw term text. -/
def listTerms (search : Option String) (terms : List Term) : List Term :=
  let filtered :=
    match search with
    | some s =>
      if s = "" then terms
      else
        let needle := pyLower s
        terms.filter (fun item =>
          pyInStr needle (pyLower item.term)
          || pyInStr needle (pyLower (item.translation.getD ""))
          || pyInStr needle (pyLower (item.notes.getD "")))
    | none => terms
  sortTermsByTerm filtered

example : pyStrip "  ab g\n" = "ab g" := by decide
example : pyLower "ABg" = "abg" := by decide
example : pyInStr "cardi" (pyLower "Bradycardia") = true := by decide
example : pyStrLe "Zebra" "apple" = true := by decide
example :
    ((upsertTerm { term := some "abg" } "id-1" "t1" []).2.map Term.term) = ["abg"] := by
  decide

/-! ## Text extraction and document artifacts -/

/-- A UTF-8 continuation byte. -/
def isContByte (b : Nat) : Bool := 0x80 ≤ b && b ≤ 0xBF

/-- Lower bound for the first continuation byte of a multi-byte sequence
(tightened for `E0`/`F0` to exclude overlong encodings). -/
def utf8Cont1Lo (b : Nat) : Nat :=
  if b = 0xE0 then 0xA0 else if b = 0xF0 then 0x90 else 0x80

/-- Upper bound for the first continuation byte (tightened for `ED` to
exclude surrogates and for `F4` to stay below `U+110000`). -/
def utf8Cont1Hi (b : Nat) : Nat :=
  if b = 0xED then 0x9F else if b = 0xF4 then 0x8F else 0xBF

/-- CPython's UTF-8 decoder with `errors="ignore"`, as used by
`bytes.decode("utf-8", errors="ignore")`: well-formed sequences decode to
their scalar value; on an invalid byte the maximal valid subpart of the
current sequence is dropped and decoding resumes at the offending byte; a
truncated final sequence is dropped. The fuel argument only bounds the
recursion; every call consumes at least one byte, so fuel equal to the byte
count (as supplied by `pyDecodeUtf8Ignore`) never runs out. -/
def utf8DecodeIgnoreGo : Nat → List Nat → List Char
  | 0, _ => []
  | _ + 1, [] => []
  | fuel + 1, b :: rest =>
    if b < 0x80 then Char.ofNat b :: utf8DecodeIgnoreGo fuel rest
    else if 0xC2 ≤ b && b ≤ 0xDF then
      match rest with
      | [] => []
      | c1 :: rest1 =>
        if isContByte c1 then
          Char.ofNat ((b - 0xC0) * 0x40 + (c1 - 0x80)) :: utf8DecodeIgnoreGo fuel rest1
        else utf8DecodeIgnoreGo fuel rest
    else if 0xE0 ≤ b && b ≤ 0xEF then
      match rest with
      | [] => []
      | c1 :: rest1 =>
        if utf8Cont1Lo b ≤ c1 && c1 ≤ utf8Cont1Hi b then
          match rest1 with
          | [] => []
          | c2 :: rest2 =>
            if isContByte c2 then
              Char.ofNat ((b - 0xE0) * 0x1000 + (c1 - 0x80) * 0x40 + (c2 - 0x80))
                :: utf8DecodeIgnoreGo fuel rest2
            else utf8DecodeIgnoreGo fuel rest1
        else utf8DecodeIgnoreGo fuel rest
    else if 0xF0 ≤ b && b ≤ 0xF4 then
      match rest with
      | [] => []
      | c1 :: rest1 =>
        if utf8Cont1Lo b ≤ c1 && c1 ≤ utf8Cont1Hi b then
          match rest1 with
          | [] => []
          | c2 :: rest2 =>
            if isContByte c2 then
              match rest2 with
              | [] => []
              | c3 :: rest3 =>
                if isContByte c3 then
                  Char.ofNat ((b - 0xF0) * 0x40000 + (c1 - 0x80) * 0x1000
                      + (c2 - 0x80) * 0x40 + (c3 - 0x80))
                    :: utf8DecodeIgnoreGo fuel rest3
                else utf8DecodeIgnoreGo fuel rest2
            else utf8DecodeIgnoreGo fuel rest1
        else utf8DecodeIgnoreGo fuel rest
    else utf8DecodeIgnoreGo fuel rest

/-- `content.decode("utf-8", errors="ignore")`. -/
def pyDecodeUtf8Ignore (bs : List Nat) : String :=
  String.mk (utf8DecodeIgnoreGo bs.length bs)

/-- Uploaded raw bytes together with their PyPDF2 reading. `PdfReader` is a
third-party parser whose source is outside this repository, so its outcome
on the bytes is carried alongside them: `pdfPages = none` models
`PdfReader(BytesIO(content))` raising `PdfReadError` (which it does on bytes
that are not a readable PDF), and `some pages` gives each page's
`extract_text()` result, `none` standing for a falsy result. -/
structure RawBytes where
  bytes : List Nat
  pdfPages : Option (List (Option String))
deriving DecidableEq

/-- Python `"\n".join(xs)`. -/
def joinNewline : List String → String
  | [] => ""
  | [x] => x
  | x :: xs => x ++ "\n" ++ joinNewline xs

/-- Outcome of `KnowledgeStore._extract_text`: either the extracted text, or
the `PdfReadError` that `PdfReader` raises on unreadable bytes (the method
has no handler for it). -/
inductive ExtractResult
  | ok (text : String)
  | pdfReadError
deriving DecidableEq

/-- `KnowledgeStore._extract_text`. `.txt`/`.md`/`.csv` and the default
branch decode the bytes as UTF-8 ignoring undecodable sequences; `.pdf`
reads the PDF (raising on unreadable bytes) and joins `page.extract_text()
or ""` over the pages with newlines. -/
def extractText (extension : String) (content : RawBytes) : ExtractResult :=
  if extension = ".txt" || extension = ".md" || extension = ".csv" then
    .ok (pyDecodeUtf8Ignore content.bytes)
  else if extension = ".pdf" then
    match content.pdfPages with
    | none => .pdfReadError
    | some pages => .ok (joinNewline (pages.map (fun t => t.getD "")))
  else .ok (pyDecodeUtf8Ignore content.bytes)

/-- Characters of the last path component: `PurePath.name` for the
slash-free upload filenames the store handles. -/
def lastComponentChars (cs : List Char) : List Char :=
  cs.foldl (fun acc ch => if ch == '/' then [] else acc ++ [ch]) []

/-- `PurePath.name`. -/
def pathName (p : String) : String :=
  String.mk (lastComponentChars p.data)

/-- Index of the last occurrence of `c`, Python's `str.rfind` (with `none`
for `-1`). -/
def rfindIdx (c : Char) (cs : List Char) : Option Nat :=
  ((List.range cs.length).filter (fun i => cs.getD i ' ' == c)).getLast?

/-- `PurePath.suffix`: `name[i:]` for `i = name.rfind('.')` when
`0 < i < len(name) - 1`, else `""`. -/
def pathSuffix (p : String) : String :=
  let cs := (pathName p).data
  match rfindIdx '.' cs with
  | some i => if 0 < i ∧ i < cs.length - 1 then String.mk (cs.drop i) else ""
  | none => ""

/-- `PurePath.stem`: `name[:i]` under the same condition, else the whole
name. -/
def pathStem (p : String) : String :=
  let cs := (pathName p).data
  match rfindIdx '.' cs with
  | some i => if 0 < i ∧ i < cs.length - 1 then String.mk (cs.take i) else String.mk cs
  | none => String.mk cs

/-- A file in the documents directory: either the original uploaded bytes or
an extracted-text sidecar. -/
inductive FileData
  | binary (b : RawBytes)
  | text (t : String)
deriving DecidableEq

/-- The documents directory, as a path-to-content association (one entry per
path). -/
abbrev DocFS := List (String × FileData)

/-- Overwrite-or-create a file. -/
def fsWrite (path : String) (d : FileData) (fs : DocFS) : DocFS :=
  (path, d) :: fs.filter (fun e => !(e.1 == path))

/-- `Path.exists`. -/
def fsExists (path : String) (fs : DocFS) : Bool :=
  fs.any (fun e => e.1 == path)

/-- `Path.unlink`. -/
def fsUnlink (path : String) (fs : DocFS) : DocFS :=
  fs.filter (fun e => !(e.1 == path))

/-- File lookup. -/
def fsRead (path : String) (fs : DocFS) : Option FileData :=
  (fs.find? (fun e => e.1 == path)).map (fun e => e.2)

/-- A stored document record, with the exact fields `add_document` writes. -/
structure DocRecord where
  id : String
  filename : String
  title : String
  summary : Option String
  categories : List String
  stored_path : String
  original_path : String
  created_at : String
  updated_at : String
deriving DecidableEq

/-- The metadata payload of `add_document`; every field is read with
`document.get(...)`. -/
structure DocMeta where
  filename : Option String := none
  title : Option String := none
  summary : Option String := none
  categories : Option (List String) := none

def DOCUMENTS_DIR : String := "data/documents"

/-- `Path(filename).suffix.lower() or ".txt"`. -/
def effectiveExtension (filename : String) : String :=
  let s := pyLower (pathSuffix filename)
  if s = "" then ".txt" else s

/-- Result of `add_document`: `result = none` models `_extract_text` raising
(the exception propagates out of the method after the original bytes were
already written, before the snapshot was touched). -/
structure IngestOutcome where
  result : Option DocRecord
  docs : List DocRecord
  fs : DocFS

/-- `KnowledgeStore.add_document`, with the snapshot's document list and the
documents directory passed explicitly; `docId` is this call's
`str(uuid4())` and `now` is `self._now()`. -/
def addDocument (meta : DocMeta) (content : RawBytes) (docId now : String)
    (docs : List DocRecord) (fs : DocFS) : IngestOutcome :=
  let filename := pyOrStr meta.filename ("document-" ++ docId)
  let extension := effectiveExtension filename
  let originalPath := DOCUMENTS_DIR ++ "/" ++ docId ++ extension
  let fs1 := fsWrite originalPath (.binary content) fs
  match extractText extension content with
  | .pdfReadError => { result := none, docs := docs, fs := fs1 }
  | .ok text =>
    let textPath := DOCUMENTS_DIR ++ "/" ++ docId ++ ".txt"
    let fs2 := fsWrite textPath (.text text) fs1
    let record : DocRecord :=
      { id := docId
        filename := filename
        title := pyOrStr meta.title (pathStem filename)
        summary := meta.summary
        categories := meta.categories.getD []
        stored_path := textPath
        original_path := originalPath
        created_at := now
        updated_at := now }
    { result := some record, docs := docs ++ [record], fs := fs2 }

/-- The record scan of `delete_document`: walk the list left to right,
remembering the latest matching record's two artifact paths and keeping the
non-matching records. -/
def deleteScan (docId : String) : List DocRecord → Option String × Option String × List DocRecord
  | [] => (none, none, [])
  | doc :: rest =>
    let (tp, op, keep) := deleteScan docId rest
    if doc.id == docId then
      (some (tp.getD doc.stored_path), some (op.getD doc.original_path), keep)
    else (tp, op, doc :: keep)

/-- `KnowledgeStore.delete_document`: on no match return `False` and touch
nothing; on a match drop the record, unlink each artifact only if it exists
(a missing artifact is skipped, not an error), save, return `True`. -/
def deleteDocument (docId : String) (docs : List DocRecord) (fs : DocFS) :
    Bool × List DocRecord × DocFS :=
  let (tp, op, newDocs) := deleteScan docId docs
  if newDocs.length == docs.length then (false, docs, fs)
  else
    let fs1 := match tp with
      | some p => if fsExists p fs then fsUnlink p fs else fs
      | none => fs
    let fs2 := match op with
      | some p => if fsExists p fs1 then fsUnlink p fs1 else fs1
      | none => fs1
    (true, newDocs, fs2)

example : pathSuffix "abg.txt" = ".txt" := by decide
example : pathStem "abg.txt" = "abg" := by decide
example : pathSuffix "archive.tar.gz" = ".gz" := by decide
example : pathSuffix "noext" = "" := by decide
example : pathSuffix ".bashrc" = "" := by decide
example : pyDecodeUtf8Ignore [0x70, 0x48, 0xFF, 0x34] = "pH4" := by decide
example : extractText ".pdf" ⟨[1, 2], some [none, some "", none]⟩ = .ok "\n\n" := by decide

/-! ## Quiz repository

`update_quiz_question` merges an arbitrary caller-supplied dict onto a
question dict with `question.update(updates)`, so questions are embedded as
Python dicts: association lists in insertion order over a fragment of JSON
values wide enough for every field the store writes. -/

/-- The values question records hold. -/
inductive PyVal
  | vnone
  | vbool (b : Bool)
  | vint (n : Int)
  | vstr (s : String)
  | vstrList (xs : List String)
deriving DecidableEq

/-- A Python dict in insertion order. -/
abbrev Record := List (String × PyVal)

/-- Python `q.update(u)`: keys already in `q` keep their position and take
`u`'s value; keys only in `u` are appended in `u`'s order. -/
def dictUpdate (q u : Record) : Record :=
  q.map (fun kv =>
    match u.lookup kv.1 with
    | some v => (kv.1, v)
    | none => kv)
  ++ u.filter (fun kv => (q.lookup kv.1).isNone)

/-- A stored quiz record, with the exact fields `add_quiz` writes; its
questions stay generic dicts because `update_quiz_question` merges
unrestricted fields onto them. -/
structure Quiz where
  id : String
  title : String
  category : Option String
  questions : List Record
  created_at : String
  updated_at : String
  metadata : Record
deriving DecidableEq

/-- The inner loop of `update_quiz_question` over one quiz's question list:
merge `updates` onto the first question whose `"id"` value equals the string
`qid`, then break. -/
def patchFirstQuestion (qid : String) (updates : Record) :
    List Record → Option Record × List Record
  | [] => (none, [])
  | q :: rest =>
    if q.lookup "id" == some (.vstr qid) then
      let q' := dictUpdate q updates
      (some q', q' :: rest)
    else
      let (r, rest') := patchFirstQuestion qid updates rest
      (r, q :: rest')

/-- The outer loop of `update_quiz_question`: every quiz with the matching
id is visited (the outer loop has no break), its first matching question is
patched and its `updated_at` refreshed; `updated` ends up holding the last
patch performed. -/
def updateQuizScan (quizId qid : String) (updates : Record) (now : String) :
    List Quiz → Option Record × List Quiz
  | [] => (none, [])
  | quiz :: rest =>
    let (found, quiz') :=
      if quiz.id == quizId then
        match patchFirstQuestion qid updates quiz.questions with
        | (some q, qs') => (some q, { quiz with questions := qs', updated_at := now })
        | (none, _) => (none, quiz)
      else (none, quiz)
    let (r, rest') := updateQuizScan quizId qid updates now rest
    (r.orElse (fun _ => found), quiz' :: rest')

/-- `KnowledgeStore.update_quiz_question`: when no question was patched the
snapshot is not written (and nothing was mutated); otherwise the mutated
quiz list is saved and the patched question returned. -/
def updateQuizQuestion (quizId qid : String) (updates : Record) (now : String)
    (quizzes : List Quiz) : Option Record × List Quiz :=
  match updateQuizScan quizId qid updates now quizzes with
  | (none, _) => (none, quizzes)
  | (some q, quizzes') => (some q, quizzes')

/-! ## The unguarded load-mutate-save sequence

`KnowledgeStore` (and the `SupabaseService` wrapper that the routes call)
defines no lock of any kind: each operation is `_read`, mutate, `_write` on
the shared backing file. To reason about overlapping operations, one term
upsert is split into its two snapshot accesses — the load and the
mutate-plus-save — and a scheduler interleaves two such operations over the
shared file. -/

/-- One in-flight `upsert_term` call. -/
structure UpsertOp where
  entry : TermEntry
  freshId : String
  now : String

/-- How far an in-flight operation has progressed: not yet loaded, loaded a
private copy of the snapshot, or finished. -/
inductive OpPhase
  | ready
  | loaded (localTerms : List Term)
  | done

/-- One step of an operation against the shared file: `ready` performs the
`_read`, `loaded` computes the upsert on its private copy and performs the
`_write`, `done` does nothing. -/
def stepOp (op : UpsertOp) : OpPhase → List Term → OpPhase × List Term
  | .ready, file => (.loaded file, file)
  | .loaded l, _ => (.done, (upsertTerm op.entry op.freshId op.now l).2)
  | .done, file => (.done, file)

/-- Run two operations under a schedule (`true` steps the first). -/
def runSchedule (opA opB : UpsertOp) :
    List Bool → OpPhase × OpPhase × List Term → OpPhase × OpPhase × List Term
  | [], st => st
  | b :: rest, (pa, pb, file) =>
    if b then
      let (pa', file') := stepOp opA pa file
      runSchedule opA opB rest (pa', pb, file')
    else
      let (pb', file') := stepOp opB pb file
      runSchedule opA opB rest (pa, pb', file')

/-- Final backing-file contents after running two upserts from an empty
store under a schedule. -/
def finalTerms (opA opB : UpsertOp) (sched : List Bool) : List Term :=
  (runSchedule opA opB sched (.ready, .ready, [])).2.2

/-! ## The backing-file write (`_write`) as a file-system trace -/

/-- The observable file-system operations a save strategy may perform. -/
inductive FsOp
  | openTruncate (path : String)
  | writeAll (path : String) (data : String)
  | renameFile (src dst : String)
deriving DecidableEq

/-- `KnowledgeStore._write`: `self._path.open("w", ...)` truncates the
backing file in place, then `json.dump(payload, handle, ...)` writes the
full serialization `payload` of the whole snapshot into it. No temporary
file is created and nothing is renamed. -/
def knowledgeWrite (path : String) (payload : String) : List FsOp :=
  [.openTruncate path, .writeAll path payload]

/-- Whether an operation is a rename. -/
def fsOpIsRename : FsOp → Bool
  | .renameFile _ _ => true
  | _ => false

/-- The single path a non-rename operation touches. -/
def fsOpPath : FsOp → Option String
  | .openTruncate p => some p
  | .writeAll p _ => some p
  | .renameFile _ _ => none

/-- Plain-text file system for the trace semantics. -/
abbrev TextFS := List (String × String)

def textWrite (path content : String) (files : TextFS) : TextFS :=
  (path, content) :: files.filter (fun e => !(e.1 == path))

def textLookup (path : String) (files : TextFS) : Option String :=
  (files.find? (fun e => e.1 == path)).map (fun e => e.2)

def runFsOp (files : TextFS) : FsOp → TextFS
  | .openTruncate p => textWrite p "" files
  | .writeAll p d => textWrite p d files
  | .renameFile src dst =>
    match textLookup src files with
    | some d => textWrite dst d (files.filter (fun e => !(e.1 == src)))
    | none => files

def runFsOps (files : TextFS) (ops : List FsOp) : TextFS :=
  ops.foldl runFsOp files

/-- Every file-system state observable if the process crashes at an
operation boundary while executing `ops` (including before the first and
after the last). -/
def crashStates (files : TextFS) (ops : List FsOp) : List TextFS :=
  (List.range (ops.length + 1)).map (fun k => runFsOps files (ops.take k))

/-! ## The backing-file read (`_read`) and store construction -/

/-- JSON values, for the shape `_read` hands back to its callers. -/
inductive Json
  | jnull
  | jbool (b : Bool)
  | jnum (n : Int)
  | jstr (s : String)
  | jarr (xs : List Json)
  | jobj (kvs : List (String × Json))

/-- The backing file as `_read` encounters it; the JSON parse performed by
`json.load` is abstracted into this state: a present file either fails to
parse (`json.load` raises `JSONDecodeError`) or parses to a JSON value. -/
inductive StoreFileState
  | absent
  | invalidJson (raw : String)
  | parsedJson (j : Json)

/-- The exception `open("r", ...)` raises on a missing file; `_read` has no
handler for it. -/
inductive ReadError
  | fileNotFound
deriving DecidableEq

/-- The dict literal `_read` returns when `json.load` raises
`JSONDecodeError`, and `__init__` writes when the file does not exist. -/
def emptySnapshotJson : Json :=
  .jobj [("terms", .jarr []), ("documents", .jarr []), ("quizzes", .jarr [])]

/-- `KnowledgeStore._read`: a missing file makes `open` raise
`FileNotFoundError` (uncaught); a present file that fails JSON parsing
yields the empty snapshot (the `except json.JSONDecodeError` branch); any
successfully parsed JSON value is returned unchanged, whatever its shape. -/
def knowledgeRead : StoreFileState → Except ReadError Json
  | .absent => .error .fileNotFound
  | .invalidJson _ => .ok emptySnapshotJson
  | .parsedJson j => .ok j

/-- `KnowledgeStore.__init__`: when the backing file does not exist, write
the empty three-collection snapshot to it. -/
def initStoreFile : StoreFileState → StoreFileState
  | .absent => .parsedJson emptySnapshotJson
  | s => s

example :
    (finalTerms ⟨{ term := some "alpha" }, "id-a", "t1"⟩ ⟨{ term := some "beta" }, "id-b", "t2"⟩
      [true, false, true, false]).map Term.term = ["beta"] := by decide

/-! ## Order lemmas for the sort key -/

theorem charListLe_cons_iff (a b : Char) (as bs : List Char) :
    charListLe (a :: as) (b :: bs) = true ↔
      a.toNat < b.toNat ∨ (a.toNat = b.toNat ∧ charListLe as bs = true) := by
  rcases Nat.lt_trichotomy a.toNat b.toNat with h | h | h
  · simp [charListLe, h]
  · have h1 : ¬ a.toNat < b.toNat := by omega
    have h2 : ¬ b.toNat < a.toNat := by omega
    simp [charListLe, h1, h2, h]
  · have h1 : ¬ a.toNat < b.toNat := by omega
    have h2 : a.toNat ≠ b.toNat := by omega
    simp [charListLe, h1, h, h2]

theorem charListLe_total : ∀ a b : List Char, charListLe a b = true ∨ charListLe b a = true
  | [], _ => Or.inl rfl
  | _ :: _, [] => Or.inr rfl
  | a :: as, b :: bs => by
    rcases Nat.lt_trichotomy a.toNat b.toNat with h | h | h
    · exact Or.inl ((charListLe_cons_iff a b as bs).2 (Or.inl h))
    · rcases charListLe_total as bs with ih | ih
      · exact Or.inl ((charListLe_cons_iff a b as bs).2 (Or.inr ⟨h, ih⟩))
      · exact Or.inr ((charListLe_cons_iff b a bs as).2 (Or.inr ⟨h.symm, ih⟩))
    · exact Or.inr ((charListLe_cons_iff b a bs as).2 (Or.inl h))

theorem charListLe_trans : ∀ a b c : List Char,
    charListLe a b = true → charListLe b c = true → charListLe a c = true
  | [], _, _, _, _ => rfl
  | _ :: _, [], _, h1, _ => by simp [charListLe] at h1
  | _ :: _, _ :: _, [], _, h2 => by simp [charListLe] at h2
  | a :: as, b :: bs, c :: cs, h1, h2 => by
    rw [charListLe_cons_iff] at h1 h2 ⊢
    rcases h1 with h1 | ⟨e1, t1⟩ <;> rcases h2 with h2 | ⟨e2, t2⟩
    · exact Or.inl (by omega)
    · exact Or.inl (by omega)
    · exact Or.inl (by omega)
    · exact Or.inr ⟨by omega, charListLe_trans as bs cs t1 t2⟩

instance : IsTotal Term rawTermLe :=
  ⟨fun a b => charListLe_total a.term.data b.term.data⟩

instance : IsTrans Term rawTermLe :=
  ⟨fun a b c => charListLe_trans a.term.data b.term.data c.term.data⟩

theorem sorted_sortTermsByTerm (terms : List Term) :
    List.Sorted rawTermLe (sortTermsByTerm terms) :=
  List.sorted_insertionSort rawTermLe terms

/-! ## Claim C1 -/

/-- C1: refuted on the code. Upserting `"abg"` and then `"ABG"` — the same
term text up to letter case — into an empty store leaves TWO stored terms,
both normalizing to `"abg"`, because `upsert_term`'s `term_lower` variable
only strips whitespace and the match against stored records is a
case-sensitive equality. The claim demands exactly one record whose fields
are the second upsert's with the first's `created_at`. -/
theorem c1_case_variant_upsert_duplicates :
    ((upsertTerm { term := some "ABG" } "id-2" "t2"
        ((upsertTerm { term := some "abg" } "id-1" "t1" []).2)).2.map Term.term)
      = ["ABG", "abg"]
    ∧ (((upsertTerm { term := some "ABG" } "id-2" "t2"
        ((upsertTerm { term := some "abg" } "id-1" "t1" []).2)).2.filter
          (fun t => pyLower t.term == "abg")).length = 2) := by decide

/-! ## Claim C2 -/

/-- C2: refuted on the code. `KnowledgeStore` and its `SupabaseService`
wrapper define no lock at all, so nothing serializes the load-mutate-save
sequences. Interleaving two upserts of the distinct terms `"alpha"` and
`"beta"` at their snapshot loads (both load the empty snapshot before
either saves) leaves one stored term, not two — the first write is lost —
whereas the serialized schedule of the same two operations keeps both. -/
theorem c2_interleaved_upserts_lose_update :
    (finalTerms ⟨{ term := some "alpha" }, "id-a", "t1"⟩
        ⟨{ term := some "beta" }, "id-b", "t2"⟩ [true, false, true, false]).map Term.term
      = ["beta"]
    ∧ (finalTerms ⟨{ term := some "alpha" }, "id-a", "t1"⟩
        ⟨{ term := some "beta" }, "id-b", "t2"⟩ [true, true, false, false]).map Term.term
      = ["alpha", "beta"] := by decide

/-! ## Claim C7 -/

/-- C7: counterexample to the claim as stated. After upserting `"Zebra"`
then `"apple"`, the stored order is `["Zebra", "apple"]` (raw code-point
order, `Z` before `a`), whose case-normalized keys `["zebra", "apple"]` are
NOT ascending — the claim's case-insensitive order would demand
`["apple", "Zebra"]`. -/
theorem c7_counterexample_not_normalized_order :
    ((upsertTerm { term := some "apple" } "id-2" "t2"
        ((upsertTerm { term := some "Zebra" } "id-1" "t1" []).2)).2.map
          (fun t => pyLower t.term)) = ["zebra", "apple"]
    ∧ pyStrLe (pyLower "Zebra") (pyLower "apple") = false := by decide

/-- C7 (amended): after every term mutation that writes (`upsert_term`
always, `update_term` when it finds its record) and in every `list_terms`
result, the term list is sorted ascending by the RAW term text (case-
sensitive code-point order, Python's default string order) — not by the
case-insensitively normalized text. -/
theorem c7_term_lists_sorted_by_raw_term :
    (∀ entry freshId now terms,
      List.Sorted rawTermLe ((upsertTerm entry freshId now terms).2))
    ∧ (∀ entryId u now terms r terms2,
        updateTerm entryId u now terms = (some r, terms2) →
        List.Sorted rawTermLe terms2)
    ∧ (∀ search terms, List.Sorted rawTermLe (listTerms search terms)) := by
  refine ⟨fun entry freshId now terms => ?_,
    fun entryId u now terms r terms2 h => ?_,
    fun search terms => ?_⟩
  · exact sorted_sortTermsByTerm _
  · unfold updateTerm at h
    cases hf : terms.find? (fun item => item.id == entryId) with
    | none => rw [hf] at h; simp at h
    | some t =>
      rw [hf] at h
      simp only [Prod.mk.injEq] at h
      rw [← h.2]
      exact sorted_sortTermsByTerm _
  · exact sorted_sortTermsByTerm _

example :
    updateTerm "id-1" {} "t2" [⟨"id-1", "abg", none, none, [], "t0", "t0"⟩]
      = (some ⟨"id-1", "abg", none, none, [], "t0", "t2"⟩,
         [⟨"id-1", "abg", none, none, [], "t0", "t2"⟩]) := by decide

/-! ## Claim C8 -/

/-- C8: counterexample to the claim as stated. Upserting `{term: "npo"}`
(drawing id `"id-1"`), then upserting `{term: "npo"}` again with no id
(drawing `"id-2"`): the second call matches the existing record by term
text — its `created_at` `"t1"` is carried over — yet the stored record's id
becomes the freshly drawn `"id-2"`, not the matched record's `"id-1"`. -/
theorem c8_counterexample_id_regenerated :
    ((upsertTerm { term := some "npo" } "id-1" "t1" []).2.map Term.id) = ["id-1"]
    ∧ ((upsertTerm { term := some "npo" } "id-2" "t2"
        ((upsertTerm { term := some "npo" } "id-1" "t1" []).2)).1.created_at = "t1")
    ∧ ((upsertTerm { term := some "npo" } "id-2" "t2"
        ((upsertTerm { term := some "npo" } "id-1" "t1" []).2)).2.map Term.id)
      = ["id-2"] := by decide

/-- C8 (amended): the record an upsert stores and returns always carries the
incoming entry's id — the supplied one if truthy, else the freshly drawn
one — even when the match was found by term text; of the matched record only
`created_at` survives. A term's id is therefore stable across upserts only
when the caller passes the existing id explicitly. -/
theorem c8_upsert_overwrites_id :
    (∀ entry freshId now terms,
      ((upsertTerm entry freshId now terms).1).id = pyOrStr entry.id freshId)
    ∧ (∀ entry freshId now terms e,
        upsertMatch (pyOrStr entry.id freshId) (pyStrip (entry.term.getD "")) terms
          = some e →
        ((upsertTerm entry freshId now terms).1).created_at = e.created_at) := by
  constructor
  · intro entry freshId now terms
    rfl
  · intro entry freshId now terms e h
    simp [upsertTerm, h]

example :
    upsertMatch (pyOrStr (some "") "id-9") (pyStrip "npo")
      [⟨"id-1", "npo", none, none, [], "t0", "t0"⟩]
      = some ⟨"id-1", "npo", none, none, [], "t0", "t0"⟩ := by decide

/-! ## Claim C3 -/

/-- C3: counterexample to the claim as stated. The save trace of `_write`
contains no rename at all (so there is no write-to-temporary-then-rename
step), and a crash at the boundary after the truncating `open("w")` is an
observable state in which the backing file holds `""` — neither the old
contents `"OLD"` nor the new serialization `"NEW"`, i.e. a half-written,
unparseable state. -/
theorem c3_counterexample_truncate_crash_state :
    ((knowledgeWrite "data/knowledge_store.json" "NEW").all
        (fun opn => !(fsOpIsRename opn))) = true
    ∧ ((crashStates [("data/knowledge_store.json", "OLD")]
          (knowledgeWrite "data/knowledge_store.json" "NEW")).contains
        [("data/knowledge_store.json", "")]) = true
    ∧ (("" : String) == "OLD") = false
    ∧ (("" : String) == "NEW") = false := by decide

/-- C3 (amended): `_write` does write the entire serialized snapshot on
every save — after the trace runs, the backing file holds exactly the full
payload, never an append or partial result — but it does so by truncating
the backing file in place and writing into it directly: every operation of
the trace targets the backing path itself and none is a rename, and the
crash-boundary states are exactly {old contents, empty truncated file, full
new contents}, so a crash between the truncation and the completed write
leaves an empty (hence unparseable) backing file. -/
theorem c3_write_is_full_but_not_atomic :
    (∀ path payload old files,
      textLookup path (runFsOps (textWrite path old files) (knowledgeWrite path payload))
        = some payload)
    ∧ (∀ path payload,
        ((knowledgeWrite path payload).all
          (fun opn => !(fsOpIsRename opn) && (fsOpPath opn == some path))) = true)
    ∧ (∀ path payload old files,
        crashStates (textWrite path old files) (knowledgeWrite path payload)
          = [textWrite path old files,
             textWrite path "" (textWrite path old files),
             textWrite path payload (textWrite path "" (textWrite path old files))]) := by
  refine ⟨fun path payload old files => ?_, fun path payload => ?_,
    fun path payload old files => ?_⟩
  · simp [knowledgeWrite, runFsOps, runFsOp, textLookup, textWrite]
  · simp [knowledgeWrite, fsOpIsRename, fsOpPath]
  · rfl

/-! ## Claim C4 -/

/-- C4: counterexample to the claim as stated. A backing file whose content
parses as the JSON array `[]` — valid JSON, but not the expected
three-collection structure — is returned by `_read` as-is, not replaced by
the empty snapshot (only a `JSONDecodeError` is caught); and `_read` on an
absent file raises `FileNotFoundError` rather than returning the empty
snapshot. -/
theorem c4_counterexample_wrong_shape_returned :
    knowledgeRead (.parsedJson (.jarr [])) = .ok (.jarr [])
    ∧ Json.jarr [] ≠ emptySnapshotJson
    ∧ knowledgeRead .absent = .error .fileNotFound :=
  ⟨rfl, fun h => Json.noConfusion h, rfl⟩

/-- C4 (amended): after construction — which writes the empty
three-collection snapshot when the backing file does not exist — `_read`
never fails: a file whose content is not valid JSON yields the empty
snapshot, and a file that parses as any JSON value is returned unchanged
(a wrong-shape value such as a bare array is NOT reset to the empty
snapshot). Only `_read` on an absent backing file raises. -/
theorem c4_read_recovers_parse_failures_only :
    (∀ fs : StoreFileState, ∃ j, knowledgeRead (initStoreFile fs) = .ok j)
    ∧ (∀ raw, knowledgeRead (.invalidJson raw) = .ok emptySnapshotJson)
    ∧ (∀ j, knowledgeRead (.parsedJson j) = .ok j)
    ∧ knowledgeRead .absent = .error .fileNotFound := by
  refine ⟨fun fs => ?_, fun raw => rfl, fun j => rfl, rfl⟩
  cases fs with
  | absent => exact ⟨emptySnapshotJson, rfl⟩
  | invalidJson raw => exact ⟨emptySnapshotJson, rfl⟩
  | parsedJson j => exact ⟨j, rfl⟩

/-! ## Claim C5 -/

/-- C5: counterexample to the claim as stated. For the extension `.pdf` and
byte content that PyPDF2 cannot read, `_extract_text` raises
`PdfReadError` — `add_document` has no handler around it, so the error
propagates out of ingest with no Document stored. -/
theorem c5_counterexample_unreadable_pdf_raises :
    extractText ".pdf" ⟨[110, 111], none⟩ = .pdfReadError
    ∧ (addDocument { filename := some "notes.pdf" } ⟨[110, 111], none⟩
        "doc-1" "t1" [] []).result = none
    ∧ (addDocument { filename := some "notes.pdf" } ⟨[110, 111], none⟩
        "doc-1" "t1" [] []).docs = [] := by decide

/-- C5 (amended): text extraction is total — a lossy UTF-8 decode — for
`.txt`/`.md`/`.csv` and for every extension other than `.pdf`; only the
`.pdf` branch can fail, exactly when the bytes are not a readable PDF, and
that `PdfReadError` propagates out of `add_document`, which then stores no
record (ingest fails exactly when the effective extension is `.pdf` and the
bytes are unreadable). -/
theorem c5_extraction_raises_only_unreadable_pdf :
    (∀ ext content, extractText ext content = .pdfReadError ↔
        ext = ".pdf" ∧ content.pdfPages = none)
    ∧ (∀ meta content docId now docs fs,
        (addDocument meta content docId now docs fs).result = none ↔
          (effectiveExtension (pyOrStr meta.filename ("document-" ++ docId)) = ".pdf"
            ∧ content.pdfPages = none)) := by
  have hext : ∀ ext content, extractText ext content = .pdfReadError ↔
      ext = ".pdf" ∧ content.pdfPages = none := by
    rintro ext ⟨bs, pp⟩
    by_cases h1 : ext = ".txt"
    · subst h1; simp [extractText]
    by_cases h2 : ext = ".md"
    · subst h2; simp [extractText]
    by_cases h3 : ext = ".csv"
    · subst h3; simp [extractText]
    by_cases h4 : ext = ".pdf"
    · subst h4
      cases pp with
      | none => simp [extractText]
      | some pages => simp [extractText]
    · simp [extractText, h1, h2, h3, h4]
  refine ⟨hext, fun meta content docId now docs fs => ?_⟩
  simp only [addDocument]
  cases hx : extractText (effectiveExtension (pyOrStr meta.filename ("document-" ++ docId)))
      content with
  | pdfReadError =>
    have := (hext _ _).1 hx
    simp [this]
  | ok t =>
    constructor
    · intro h3; exact Option.noConfusion h3
    · intro hr
      have h4 := (hext (effectiveExtension (pyOrStr meta.filename ("document-" ++ docId)))
        content).2 hr
      rw [hx] at h4
      exact ExtractResult.noConfusion h4

example : extractText ".docx" ⟨[112, 72, 255, 52], none⟩ = .ok "pH4" := by decide

/-! ## Claim C6 -/

/-- C6: counterexample to the claim as stated. A `.pdf` with TWO textless
pages ingests fine but its extracted sidecar text is `"\n"` — the newline
`"\n".join` places between the two empty page strings — not the empty
string the claim demands for any number of pages. -/
theorem c6_counterexample_two_textless_pages :
    extractText ".pdf" ⟨[1, 2], some [none, none]⟩ = .ok "\n"
    ∧ ((addDocument { filename := some "scan.pdf" } ⟨[1, 2], some [none, none]⟩
        "doc-2" "t1" [] []).result.map DocRecord.title) = some "scan"
    ∧ fsRead "data/documents/doc-2.txt"
        (addDocument { filename := some "scan.pdf" } ⟨[1, 2], some [none, none]⟩
          "doc-2" "t1" [] []).fs = some (.text "\n")
    ∧ (("\n" : String) == "") = false := by decide

theorem joinNewline_replicate_empty : ∀ n : Nat,
    joinNewline (List.replicate (n + 1) "") = String.mk (List.replicate n '\n')
  | 0 => rfl
  | n + 1 => by
    have ih := joinNewline_replicate_empty n
    show ("" : String) ++ "\n" ++ joinNewline (List.replicate (n + 1) "") = _
    rw [ih]
    rfl

/-- C6 (amended): extracting a `.pdf` whose pages all yield no text
produces exactly `pageCount - 1` newline characters — the `"\n".join`
separators between the empty page strings — which is the empty string
precisely when the PDF has at most one page; ingesting such a PDF succeeds
and writes that string to the sidecar artifact. -/
theorem c6_textless_pdf_text_is_separators :
    (∀ content pages, content.pdfPages = some pages →
      (∀ p ∈ pages, p.getD "" = "") →
      extractText ".pdf" content
        = .ok (String.mk (List.replicate (pages.length - 1) '\n')))
    ∧ (∀ content pages, content.pdfPages = some pages → pages.length ≤ 1 →
      (∀ p ∈ pages, p.getD "" = "") →
      extractText ".pdf" content = .ok "")
    ∧ (∀ meta content docId now docs fs pages,
      content.pdfPages = some pages →
      (∀ p ∈ pages, p.getD "" = "") →
      effectiveExtension (pyOrStr meta.filename ("document-" ++ docId)) = ".pdf" →
      ((addDocument meta content docId now docs fs).result.isSome = true
        ∧ fsRead (DOCUMENTS_DIR ++ "/" ++ docId ++ ".txt")
            (addDocument meta content docId now docs fs).fs
          = some (.text (String.mk (List.replicate (pages.length - 1) '\n'))))) := by
  have hmain : ∀ content pages, content.pdfPages = some pages →
      (∀ p ∈ pages, p.getD "" = "") →
      extractText ".pdf" content
        = .ok (String.mk (List.replicate (pages.length - 1) '\n')) := by
    rintro ⟨bs, pp⟩ pages hp h
    cases hp
    show (if (".pdf" = ".txt" || ".pdf" = ".md" || ".pdf" = ".csv" : Bool) = true then _
      else _) = _
    rw [if_neg (by decide)]
    rw [if_pos (by decide)]
    have hrep : pages.map (fun t => t.getD "") =
        List.replicate (pages.map (fun t => t.getD "")).length "" :=
      List.eq_replicate_length.mpr (by
        intro b hb
        rcases List.mem_map.1 hb with ⟨p, hpm, rfl⟩
        exact h p hpm)
    show ExtractResult.ok (joinNewline (pages.map (fun t => t.getD ""))) = _
    rw [hrep]
    cases pages with
    | nil => rfl
    | cons q qs =>
      simp only [List.length_map, List.length_cons]
      rw [joinNewline_replicate_empty]
      simp
  refine ⟨hmain, fun content pages hp hlen h => ?_,
    fun meta content docId now docs fs pages hp h he => ?_⟩
  · rw [hmain content pages hp h]
    have h0 : pages.length - 1 = 0 := by omega
    rw [h0]
    rfl
  · have hx := hmain content pages hp h
    simp only [addDocument, he, hx]
    refine ⟨rfl, ?_⟩
    simp [fsRead, fsWrite]


/-! ## Claim C9 -/

theorem filter_length_eq_iff_all {α : Type} (p : α → Bool) : ∀ l : List α,
    (l.filter p).length = l.length ↔ ∀ a ∈ l, p a = true
  | [] => by simp
  | a :: l => by
    cases ha : p a with
    | true => simp [List.filter_cons, ha, filter_length_eq_iff_all p l]
    | false =>
      have hle := List.length_filter_le p l
      rw [List.filter_cons, if_neg (by simp [ha])]
      constructor
      · intro h
        rw [List.length_cons] at h
        omega
      · intro h
        have hcontra := h a (by simp)
        rw [ha] at hcontra
        exact Bool.noConfusion hcontra

theorem deleteScan_keep (docId : String) : ∀ docs : List DocRecord,
    (deleteScan docId docs).2.2 = docs.filter (fun d => !(d.id == docId))
  | [] => rfl
  | doc :: rest => by
    rcases hrec : deleteScan docId rest with ⟨tp, op, keep⟩
    have ih : keep = rest.filter (fun d => !(d.id == docId)) := by
      have h0 := deleteScan_keep docId rest
      rw [hrec] at h0
      exact h0
    cases hd : (doc.id == docId) with
    | true => simp [deleteScan, hrec, hd, ih, List.filter_cons]
    | false => simp [deleteScan, hrec, hd, ih, List.filter_cons]

theorem deleteScan_paths_append (docId : String) (rec : DocRecord)
    (hrec : (rec.id == docId) = true) : ∀ docs : List DocRecord,
    (deleteScan docId (docs ++ [rec])).1 = some rec.stored_path
    ∧ (deleteScan docId (docs ++ [rec])).2.1 = some rec.original_path
  | [] => by simp [deleteScan, hrec]
  | doc :: rest => by
    rcases hscan : deleteScan docId (rest ++ [rec]) with ⟨tp, op, keep⟩
    have ih : tp = some rec.stored_path ∧ op = some rec.original_path := by
      have h0 := deleteScan_paths_append docId rec hrec rest
      rw [hscan] at h0
      exact h0
    cases hd : (doc.id == docId) with
    | true => simp [deleteScan, hscan, hd, ih.1, ih.2]
    | false => simp [deleteScan, hscan, hd, ih.1, ih.2]

theorem fsExists_unlink (p : String) : ∀ fs : DocFS, fsExists p (fsUnlink p fs) = false
  | [] => rfl
  | e :: rest => by
    have ih := fsExists_unlink p rest
    cases he : (e.1 == p) with
    | true => simp [fsUnlink, fsExists, List.filter_cons, he, ih]
    | false => simp [fsUnlink, fsExists, List.filter_cons, he, ih]

theorem fsExists_unlinkIf_self (p : String) (fs : DocFS) :
    fsExists p (if fsExists p fs = true then fsUnlink p fs else fs) = false := by
  by_cases h : fsExists p fs = true
  · rw [if_pos h]; exact fsExists_unlink p fs
  · rw [if_neg h]; simpa using h

theorem fsExists_filter_of_not (p : String) (q : String × FileData → Bool)
    (fs : DocFS) (h : fsExists p fs = false) : fsExists p (fs.filter q) = false := by
  cases hx : fsExists p (fs.filter q) with
  | false => rfl
  | true =>
    exfalso
    rcases List.any_eq_true.1 hx with ⟨e, he, hep⟩
    have hmem := (List.mem_filter.1 he).1
    have h2 : fsExists p fs = true := List.any_eq_true.2 ⟨e, hmem, hep⟩
    rw [h] at h2
    exact Bool.noConfusion h2

/-- C9: `delete_document` returns `True` exactly when a record with the id
is stored; with no match it returns `False` and leaves both the record list
and the documents directory untouched; with a match it drops exactly the
matching records and afterwards neither of the two artifact paths recorded
on the (last) matched record exists — each was unlinked if present, and a
missing one was tolerated; and ingesting a document then deleting its id
reports success and leaves neither the sidecar text artifact nor the
original-bytes artifact on disk. -/
theorem c9_delete_document_cleanup :
    (∀ docId docs fs, (deleteDocument docId docs fs).1
        = docs.any (fun d => d.id == docId))
    ∧ (∀ docId docs fs, docs.any (fun d => d.id == docId) = false →
        deleteDocument docId docs fs = (false, docs, fs))
    ∧ (∀ docId docs fs, docs.any (fun d => d.id == docId) = true →
        (deleteDocument docId docs fs).2.1 = docs.filter (fun d => !(d.id == docId)))
    ∧ (∀ docId docs fs p, docs.any (fun d => d.id == docId) = true →
        ((deleteScan docId docs).1 = some p ∨ (deleteScan docId docs).2.1 = some p) →
        fsExists p (deleteDocument docId docs fs).2.2 = false)
    ∧ (∀ meta content docId now docs fs rec,
        (addDocument meta content docId now docs fs).result = some rec →
        (deleteDocument rec.id (addDocument meta content docId now docs fs).docs
            (addDocument meta content docId now docs fs).fs).1 = true
        ∧ fsExists rec.stored_path
            (deleteDocument rec.id (addDocument meta content docId now docs fs).docs
              (addDocument meta content docId now docs fs).fs).2.2 = false
        ∧ fsExists rec.original_path
            (deleteDocument rec.id (addDocument meta content docId now docs fs).docs
              (addDocument meta content docId now docs fs).fs).2.2 = false) := by
  have hall_of_any_false : ∀ (docId : String) (docs : List DocRecord),
      docs.any (fun d => d.id == docId) = false →
      ∀ d ∈ docs, (!(d.id == docId)) = true := by
    intro docId docs hany d hd
    cases hpd : (d.id == docId) with
    | false => rfl
    | true =>
      have h2 : docs.any (fun d => d.id == docId) = true :=
        List.any_eq_true.2 ⟨d, hd, hpd⟩
      rw [hany] at h2
      exact Bool.noConfusion h2
  have hbranch : ∀ (docId : String) (docs : List DocRecord),
      docs.any (fun d => d.id == docId) = true →
      ¬ ((docs.filter (fun d => !(d.id == docId))).length == docs.length) = true := by
    intro docId docs hany hb2
    rcases List.any_eq_true.1 hany with ⟨d, hd, hpd⟩
    have hlen : (docs.filter (fun d => !(d.id == docId))).length = docs.length := by
      simpa using hb2
    have hcontra := (filter_length_eq_iff_all _ docs).1 hlen d hd
    rw [hpd] at hcontra
    exact Bool.noConfusion hcontra
  have hc2 : ∀ docId docs fs, docs.any (fun d => d.id == docId) = false →
      deleteDocument docId docs fs = (false, docs, fs) := by
    intro docId docs fs hany
    rcases hscan : deleteScan docId docs with ⟨tp, op, newDocs⟩
    have hkeep : newDocs = docs.filter (fun d => !(d.id == docId)) := by
      have h0 := deleteScan_keep docId docs
      rw [hscan] at h0
      exact h0
    have hlen : newDocs.length = docs.length := by
      rw [hkeep]
      exact (filter_length_eq_iff_all _ docs).2 (hall_of_any_false docId docs hany)
    simp only [deleteDocument, hscan]
    rw [if_pos (by simp [hlen])]
  have hc1 : ∀ docId docs fs, (deleteDocument docId docs fs).1
      = docs.any (fun d => d.id == docId) := by
    intro docId docs fs
    cases hany : docs.any (fun d => d.id == docId) with
    | false => rw [hc2 docId docs fs hany]
    | true =>
      rcases hscan : deleteScan docId docs with ⟨tp, op, newDocs⟩
      have hkeep : newDocs = docs.filter (fun d => !(d.id == docId)) := by
        have h0 := deleteScan_keep docId docs
        rw [hscan] at h0
        exact h0
      simp only [deleteDocument, hscan]
      rw [if_neg (by rw [hkeep]; exact hbranch docId docs hany)]
  have hc3 : ∀ docId docs fs, docs.any (fun d => d.id == docId) = true →
      (deleteDocument docId docs fs).2.1
        = docs.filter (fun d => !(d.id == docId)) := by
    intro docId docs fs hany
    rcases hscan : deleteScan docId docs with ⟨tp, op, newDocs⟩
    have hkeep : newDocs = docs.filter (fun d => !(d.id == docId)) := by
      have h0 := deleteScan_keep docId docs
      rw [hscan] at h0
      exact h0
    simp only [deleteDocument, hscan]
    rw [if_neg (by rw [hkeep]; exact hbranch docId docs hany)]
    exact hkeep
  have hc4 : ∀ docId docs fs p, docs.any (fun d => d.id == docId) = true →
      ((deleteScan docId docs).1 = some p ∨ (deleteScan docId docs).2.1 = some p) →
      fsExists p (deleteDocument docId docs fs).2.2 = false := by
    intro docId docs fs p hany hp
    rcases hscan : deleteScan docId docs with ⟨tp, op, newDocs⟩
    rw [hscan] at hp
    have hkeep : newDocs = docs.filter (fun d => !(d.id == docId)) := by
      have h0 := deleteScan_keep docId docs
      rw [hscan] at h0
      exact h0
    simp only [deleteDocument, hscan]
    rw [if_neg (by rw [hkeep]; exact hbranch docId docs hany)]
    rcases hp with hp | hp
    · replace hp : tp = some p := hp
      subst hp
      cases op with
      | none => exact fsExists_unlinkIf_self p fs
      | some q =>
        show fsExists p
            (if fsExists q (if fsExists p fs = true then fsUnlink p fs else fs) = true
              then fsUnlink q (if fsExists p fs = true then fsUnlink p fs else fs)
              else if fsExists p fs = true then fsUnlink p fs else fs) = false
        by_cases hq :
            fsExists q (if fsExists p fs = true then fsUnlink p fs else fs) = true
        · rw [if_pos hq]
          exact fsExists_filter_of_not p _ _ (fsExists_unlinkIf_self p fs)
        · rw [if_neg hq]
          exact fsExists_unlinkIf_self p fs
    · replace hp : op = some p := hp
      subst hp
      cases tp with
      | none => exact fsExists_unlinkIf_self p fs
      | some t => exact fsExists_unlinkIf_self p _
  refine ⟨hc1, hc2, hc3, hc4, ?_⟩
  intro meta content docId now docs fs rec hres
  cases hx : extractText (effectiveExtension (pyOrStr meta.filename ("document-" ++ docId)))
      content with
  | pdfReadError =>
    exfalso
    simp only [addDocument, hx] at hres
    exact Option.noConfusion hres
  | ok t =>
    simp only [addDocument, hx] at hres ⊢
    simp only [Option.some.injEq] at hres
    have hany : ((docs ++ [rec]).any (fun d => d.id == rec.id)) = true :=
      List.any_eq_true.2 ⟨rec, by simp, beq_self_eq_true rec.id⟩
    have hpaths := deleteScan_paths_append rec.id rec (beq_self_eq_true rec.id) docs
    refine ⟨?_, ?_, ?_⟩
    · rw [← hres] at hany ⊢
      rw [hc1]
      exact hany
    · rw [← hres] at hany hpaths ⊢
      exact hc4 _ _ _ _ hany (Or.inl hpaths.1)
    · rw [← hres] at hany hpaths ⊢
      exact hc4 _ _ _ _ hany (Or.inr hpaths.2)

/-! ## Claim C10 -/

theorem lookup_eq_some_of_mem_nodup {k : String} {v : PyVal} : ∀ {u : Record},
    (u.map Prod.fst).Nodup → (k, v) ∈ u → u.lookup k = some v
  | [], _, hm => absurd hm (List.not_mem_nil _)
  | (k1, v1) :: rest, hnd, hm => by
    rw [List.map_cons, List.nodup_cons] at hnd
    rcases List.mem_cons.1 hm with he | he
    · injection he with h1 h2
      subst h1
      subst h2
      simp [List.lookup]
    · have hk : k ∈ rest.map Prod.fst := List.mem_map.2 ⟨(k, v), he, rfl⟩
      have hne : k ≠ k1 := fun hkk => hnd.1 (hkk ▸ hk)
      simp only [List.lookup, beq_eq_false_iff_ne.mpr hne]
      exact lookup_eq_some_of_mem_nodup hnd.2 he

theorem lookup_eq_none_of_not_mem {k : String} : ∀ {u : Record},
    k ∉ u.map Prod.fst → u.lookup k = none
  | [], _ => rfl
  | (k1, v1) :: rest, h => by
    have hne : k ≠ k1 := fun he => h (by simp [he])
    simp only [List.lookup, beq_eq_false_iff_ne.mpr hne]
    exact lookup_eq_none_of_not_mem (fun hm => h (by simp [hm]))

theorem lookup_append (k : String) : ∀ xs ys : Record,
    (xs ++ ys).lookup k = ((xs.lookup k).orElse (fun _ => ys.lookup k))
  | [], ys => rfl
  | (k1, v1) :: xs, ys => by
    cases hk : (k == k1) with
    | true => simp [List.lookup, hk, Option.orElse]
    | false => simp [List.lookup, hk, lookup_append k xs ys]

theorem lookup_map_dictUpdate (u : Record) (k : String) : ∀ q : Record,
    (q.map (fun kv => match u.lookup kv.1 with
      | some v => (kv.1, v)
      | none => kv)).lookup k
      = (q.lookup k).map (fun w => match u.lookup k with
          | some v' => v'
          | none => w)
  | [] => rfl
  | (k1, v1) :: q => by
    cases hk : (k == k1) with
    | true =>
      have hkeq : k = k1 := by simpa using hk
      subst hkeq
      cases hu : u.lookup k with
      | some v' => simp [List.lookup, hu]
      | none => simp [List.lookup, hu]
    | false =>
      cases hu : u.lookup k1 with
      | some v' => simp [List.lookup, hk, hu, lookup_map_dictUpdate u k q]
      | none => simp [List.lookup, hk, hu, lookup_map_dictUpdate u k q]

theorem lookup_dictUpdate_mem (q u : Record) (k : String) (v : PyVal)
    (hnd : (u.map Prod.fst).Nodup) (hm : (k, v) ∈ u) :
    (dictUpdate q u).lookup k = some v := by
  have hu : u.lookup k = some v := lookup_eq_some_of_mem_nodup hnd hm
  unfold dictUpdate
  rw [lookup_append, lookup_map_dictUpdate, hu]
  cases hq : q.lookup k with
  | some w => simp [Option.orElse]
  | none =>
    have hmB : (k, v) ∈ u.filter (fun kv => (q.lookup kv.1).isNone) :=
      List.mem_filter.2 ⟨hm, by simp [hq]⟩
    have hndB : ((u.filter (fun kv => (q.lookup kv.1).isNone)).map Prod.fst).Nodup := by
      have hsub := (List.filter_sublist u (p := fun kv => (q.lookup kv.1).isNone)).map Prod.fst
      exact hnd.sublist hsub
    simp only [Option.map_none', Option.orElse]
    exact lookup_eq_some_of_mem_nodup hndB hmB

theorem lookup_dictUpdate_not_mem (q u : Record) (k : String)
    (h : k ∉ u.map Prod.fst) : (dictUpdate q u).lookup k = q.lookup k := by
  unfold dictUpdate
  rw [lookup_append, lookup_map_dictUpdate, lookup_eq_none_of_not_mem h]
  have hf : k ∉ (u.filter (fun kv => (q.lookup kv.1).isNone)).map Prod.fst := by
    intro hm
    rcases List.mem_map.1 hm with ⟨kv, hkv, hk⟩
    exact h (List.mem_map.2 ⟨kv, (List.mem_filter.1 hkv).1, hk⟩)
  rw [lookup_eq_none_of_not_mem hf]
  cases q.lookup k <;> simp [Option.orElse]

theorem map_eq_self_of_forall {α : Type} (f : α → α) : ∀ l : List α,
    (∀ a ∈ l, f a = a) → l.map f = l
  | [], _ => rfl
  | a :: l, h => by
    rw [List.map_cons, h a (by simp),
      map_eq_self_of_forall f l (fun b hb => h b (by simp [hb]))]

theorem dictUpdate_idem (q u : Record) (hnd : (u.map Prod.fst).Nodup) :
    dictUpdate (dictUpdate q u) u = dictUpdate q u := by
  have hfix : ∀ kv ∈ dictUpdate q u,
      (match u.lookup kv.1 with
        | some v => (kv.1, v)
        | none => kv) = kv := by
    intro kv hkv
    unfold dictUpdate at hkv
    rcases List.mem_append.1 hkv with hA | hB
    · rcases List.mem_map.1 hA with ⟨kv0, _, hkv0⟩
      subst hkv0
      cases hu : u.lookup kv0.1 with
      | some v => simp [hu]
      | none => simp [hu]
    · obtain ⟨k1, v1⟩ := kv
      have hmem := (List.mem_filter.1 hB).1
      rw [lookup_eq_some_of_mem_nodup hnd hmem]
  have hempty : (u.filter (fun kv => ((dictUpdate q u).lookup kv.1).isNone)) = [] := by
    rw [List.filter_eq_nil_iff]
    intro kv hkv
    obtain ⟨k1, v1⟩ := kv
    rw [lookup_dictUpdate_mem q u k1 v1 hnd hkv]
    simp
  show (dictUpdate q u).map (fun kv => match u.lookup kv.1 with
      | some v => (kv.1, v)
      | none => kv)
    ++ u.filter (fun kv => ((dictUpdate q u).lookup kv.1).isNone) = dictUpdate q u
  rw [map_eq_self_of_forall _ _ hfix, hempty, List.append_nil]

theorem patchFirstQuestion_all_miss (qid : String) (u : Record) : ∀ qs : List Record,
    (∀ q ∈ qs, (q.lookup "id" == some (PyVal.vstr qid)) = false) →
    patchFirstQuestion qid u qs = (none, qs)
  | [], _ => rfl
  | q :: rest, h => by
    simp [patchFirstQuestion, h q (by simp),
      patchFirstQuestion_all_miss qid u rest (fun x hx => h x (by simp [hx]))]

theorem patchFirstQuestion_snd_idem (qid : String) (u : Record)
    (hu : (u.map Prod.fst).Nodup) : ∀ qs : List Record,
    (qs.map (fun q => q.lookup "id")).Nodup →
    (patchFirstQuestion qid u (patchFirstQuestion qid u qs).2).2
      = (patchFirstQuestion qid u qs).2
  | [], _ => rfl
  | q :: rest, hnd => by
    rw [List.map_cons, List.nodup_cons] at hnd
    cases hq : (q.lookup "id" == some (PyVal.vstr qid)) with
    | false =>
      rcases hrest : patchFirstQuestion qid u rest with ⟨r, rest'⟩
      have ih : (patchFirstQuestion qid u rest').2 = rest' := by
        have h0 := patchFirstQuestion_snd_idem qid u hu rest hnd.2
        rw [hrest] at h0
        exact h0
      rcases hrest' : patchFirstQuestion qid u rest' with ⟨r2, rest''⟩
      rw [hrest'] at ih
      simp [patchFirstQuestion, hq, hrest, hrest', ih]
    | true =>
      have hq' : q.lookup "id" = some (PyVal.vstr qid) := by simpa using hq
      have h1 : patchFirstQuestion qid u (q :: rest)
          = (some (dictUpdate q u), dictUpdate q u :: rest) := by
        simp [patchFirstQuestion, hq]
      rw [h1]
      have hmiss : ∀ x ∈ rest, (x.lookup "id" == some (PyVal.vstr qid)) = false := by
        intro x hx
        have hxne : x.lookup "id" ≠ some (PyVal.vstr qid) := by
          intro hxe
          exact hnd.1 (hq' ▸ (hxe ▸ List.mem_map.2 ⟨x, hx, rfl⟩))
        exact beq_eq_false_iff_ne.mpr hxne
      by_cases hin : "id" ∈ u.map Prod.fst
      · rcases List.mem_map.1 hin with ⟨⟨k0, v0⟩, hkv, hk0⟩
        simp only at hk0
        subst hk0
        have hlook : (dictUpdate q u).lookup "id" = some v0 :=
          lookup_dictUpdate_mem q u _ v0 hu hkv
        by_cases hveq : v0 = PyVal.vstr qid
        · subst hveq
          have hbeq : ((dictUpdate q u).lookup "id" == some (PyVal.vstr qid)) = true := by
            rw [hlook]; exact beq_self_eq_true _
          simp [patchFirstQuestion, hbeq, dictUpdate_idem q u hu]
        · have hbeq : ((dictUpdate q u).lookup "id" == some (PyVal.vstr qid)) = false := by
            rw [hlook]
            exact beq_eq_false_iff_ne.mpr (by simpa using hveq)
          simp [patchFirstQuestion, hbeq, patchFirstQuestion_all_miss qid u rest hmiss]
      · have hlook : (dictUpdate q u).lookup "id" = some (PyVal.vstr qid) := by
          rw [lookup_dictUpdate_not_mem q u _ hin]
          exact hq'
        have hbeq : ((dictUpdate q u).lookup "id" == some (PyVal.vstr qid)) = true := by
          rw [hlook]; exact beq_self_eq_true _
        simp [patchFirstQuestion, hbeq, dictUpdate_idem q u hu]

theorem updateQuizScan_fst_now (quizId qid : String) (u : Record) (now1 now2 : String) :
    ∀ quizzes : List Quiz, (updateQuizScan quizId qid u now1 quizzes).1
      = (updateQuizScan quizId qid u now2 quizzes).1
  | [] => rfl
  | quiz :: rest => by
    rcases h1 : updateQuizScan quizId qid u now1 rest with ⟨ra, la⟩
    rcases h2 : updateQuizScan quizId qid u now2 rest with ⟨rb, lb⟩
    have hab : ra = rb := by
      have h0 := updateQuizScan_fst_now quizId qid u now1 now2 rest
      rw [h1, h2] at h0
      exact h0
    cases hid : (quiz.id == quizId) with
    | false => simp [updateQuizScan, hid, h1, h2, hab]
    | true =>
      rcases hp : patchFirstQuestion qid u quiz.questions with ⟨r0, qs'⟩
      cases r0 <;> simp [updateQuizScan, hid, h1, h2, hp, hab]

theorem updateQuizScan_questions_idem (quizId qid : String) (u : Record)
    (hu : (u.map Prod.fst).Nodup) (now1 now2 : String) : ∀ quizzes : List Quiz,
    (∀ quiz ∈ quizzes, (quiz.questions.map (fun q => q.lookup "id")).Nodup) →
    ((updateQuizScan quizId qid u now2
        (updateQuizScan quizId qid u now1 quizzes).2).2).map Quiz.questions
      = ((updateQuizScan quizId qid u now1 quizzes).2).map Quiz.questions
  | [], _ => rfl
  | quiz :: rest, hq => by
    have ihrec := updateQuizScan_questions_idem quizId qid u hu now1 now2 rest
      (fun x hx => hq x (by simp [hx]))
    rcases hrest1 : updateQuizScan quizId qid u now1 rest with ⟨r1, rest1⟩
    rcases hrest2 : updateQuizScan quizId qid u now2 rest1 with ⟨r2, rest2⟩
    rw [hrest1] at ihrec
    rw [hrest2] at ihrec
    cases hid : (quiz.id == quizId) with
    | false =>
      have e1 : (updateQuizScan quizId qid u now1 (quiz :: rest)).2 = quiz :: rest1 := by
        simp [updateQuizScan, hid, hrest1]
      rw [e1]
      have e2 : (updateQuizScan quizId qid u now2 (quiz :: rest1)).2 = quiz :: rest2 := by
        simp [updateQuizScan, hid, hrest2]
      rw [e2]
      simp [ihrec]
    | true =>
      rcases hpatch : patchFirstQuestion qid u quiz.questions with ⟨r0, qs'⟩
      cases r0 with
      | none =>
        have e1 : (updateQuizScan quizId qid u now1 (quiz :: rest)).2 = quiz :: rest1 := by
          simp [updateQuizScan, hid, hrest1, hpatch]
        rw [e1]
        have e2 : (updateQuizScan quizId qid u now2 (quiz :: rest1)).2 = quiz :: rest2 := by
          simp [updateQuizScan, hid, hrest2, hpatch]
        rw [e2]
        simp [ihrec]
      | some q0 =>
        have e1 : (updateQuizScan quizId qid u now1 (quiz :: rest)).2
            = { quiz with questions := qs', updated_at := now1 } :: rest1 := by
          simp [updateQuizScan, hid, hrest1, hpatch]
        rw [e1]
        have hqs : (patchFirstQuestion qid u qs').2 = qs' := by
          have h0 := patchFirstQuestion_snd_idem qid u hu quiz.questions
            (hq quiz (by simp))
          rw [hpatch] at h0
          exact h0
        rcases hpatch2 : patchFirstQuestion qid u qs' with ⟨r3, qs''⟩
        rw [hpatch2] at hqs
        replace hqs : qs'' = qs' := hqs
        cases r3 with
        | none =>
          have e2 : (updateQuizScan quizId qid u now2
              ({ quiz with questions := qs', updated_at := now1 } :: rest1)).2
              = { quiz with questions := qs', updated_at := now1 } :: rest2 := by
            simp [updateQuizScan, hid, hrest2, hpatch2]
          rw [e2]
          simp [ihrec]
        | some q3 =>
          have e2 : (updateQuizScan quizId qid u now2
              ({ quiz with questions := qs', updated_at := now1 } :: rest1)).2
              = { quiz with questions := qs'', updated_at := now2 } :: rest2 := by
            simp [updateQuizScan, hid, hrest2, hpatch2]
          rw [e2]
          simp [ihrec, hqs]

/-- C10: `update_quiz_question` applied twice with the same update payload
is idempotent on the stored questions — after the second application every
quiz's question list is identical to what it was after the first (only the
owning quiz's `updated_at` is refreshed again) — and the merge places every
supplied field onto the question with no allow-list restriction: every
key/value pair of the payload is present verbatim in the merged question.
Hypotheses: the payload is a well-formed dict (distinct keys) and question
ids are unique within each quiz, the store's own invariant. -/
theorem c10_patch_question_idempotent :
    (∀ (quizzes : List Quiz) (quizId qid : String) (updates : Record)
        (now1 now2 : String),
      (updates.map Prod.fst).Nodup →
      (∀ quiz ∈ quizzes, (quiz.questions.map (fun q => q.lookup "id")).Nodup) →
      ((updateQuizQuestion quizId qid updates now2
          (updateQuizQuestion quizId qid updates now1 quizzes).2).2).map Quiz.questions
        = ((updateQuizQuestion quizId qid updates now1 quizzes).2).map Quiz.questions)
    ∧ (∀ (q updates : Record), (updates.map Prod.fst).Nodup →
        ∀ k v, (k, v) ∈ updates → (dictUpdate q updates).lookup k = some v) := by
  refine ⟨?_, fun q u hu k v hm => lookup_dictUpdate_mem q u k v hu hm⟩
  intro quizzes quizId qid u now1 now2 hu hq
  rcases hs1 : updateQuizScan quizId qid u now1 quizzes with ⟨r1, l1⟩
  cases r1 with
  | none =>
    have h2 : (updateQuizScan quizId qid u now2 quizzes).1 = none := by
      rw [← updateQuizScan_fst_now quizId qid u now1 now2 quizzes, hs1]
    rcases hs2 : updateQuizScan quizId qid u now2 quizzes with ⟨r2, l2⟩
    rw [hs2] at h2
    simp only at h2
    subst h2
    simp [updateQuizQuestion, hs1, hs2]
  | some q1 =>
    have hmain := updateQuizScan_questions_idem quizId qid u hu now1 now2 quizzes hq
    rw [hs1] at hmain
    simp only at hmain
    rcases hs2 : updateQuizScan quizId qid u now2 l1 with ⟨r2, l2⟩
    rw [hs2] at hmain
    cases r2 with
    | none => simp [updateQuizQuestion, hs1, hs2]
    | some q2 => simp [updateQuizQuestion, hs1, hs2, hmain]

example :
    (updateQuizQuestion "qz" "q1"
      [("user_answer", .vstr "NPO"), ("is_correct", .vbool true)] "t2"
      [⟨"qz", "Study Quiz", none,
        [[("id", .vstr "q1"), ("answer", .vstr "nothing by mouth")]],
        "t0", "t0", []⟩]).2.map Quiz.questions
    = [[[("id", PyVal.vstr "q1"), ("answer", PyVal.vstr "nothing by mouth"),
        ("user_answer", PyVal.vstr "NPO"), ("is_correct", PyVal.vbool true)]]] := by
  decide

end KnowledgeStore
